import Mathlib

/-!
Verification of the chain-context templating module
(`swarmauri/standard/chains/base/ChainContextBase.py`).

The module resolves `{expression}` placeholders inside template strings
against a mutable context dictionary:

* `_resolve_fstring` applies the regex `{([^}]+)}` with a replacer that
  calls `eval(expression, {}, self.context)` and substitutes
  `str(result)`; on any exception it prints a diagnostic and leaves the
  placeholder text `{expression}` in place.
* `_resolve_placeholders` walks strings / dicts / lists recursively and
  leaves every other value unchanged.
* `_resolve_ref` strips a single leading `$` sigil from strings.

The embedding below models Python values as a tagged union `PyValue`,
the context dictionary as an association list with unique keys, the
regex substitution as a character-list scanner with the exact
non-overlapping, leftmost, greedy-up-to-first-close-brace semantics of
`re.sub` for the pattern `{([^}]+)}`, and `eval` as parsing followed by
evaluation of a fragment of the Python expression grammar (names,
integer literals, the constants True/False/None, and `+`).

A CPython detail that matters: `eval(expr, {}, locals)` receives an
empty globals dict, and CPython inserts a `__builtins__` binding into
any globals dict that lacks one, so builtin names remain resolvable.
Name lookup therefore goes: locals (the context), then builtins.
`builtinsCtx` below is a finite fragment of that builtins namespace.
-/

/-- Tagged union modelling the Python values the module manipulates:
strings, dicts, lists, ints, bools, None and builtin function objects. -/
inductive PyValue where
  | int (n : Int)
  | boolV (b : Bool)
  | noneV
  | str (s : String)
  | list (xs : List PyValue)
  | dict (kvs : List (String × PyValue))
  | builtin (name : String)

/-- The context dictionary `self.context`: string keys to Python values. -/
abbrev Context := List (String × PyValue)

/-- Dictionary lookup (`context[k]` / `context.get(k)`). -/
def ctxLookup : Context → String → Option PyValue
  | [], _ => none
  | (k, v) :: rest, s => if k = s then some v else ctxLookup rest s

/-- `dict.update`: merge the pairs of `kwargs` into `ctx`, overwriting
existing keys and appending new ones (models `self.context.update(kwargs)`). -/
def ctxUpdate (ctx kwargs : Context) : Context :=
  kwargs.foldl
    (fun c kv =>
      if c.any (fun p => p.1 = kv.1) then
        c.map (fun p => if p.1 = kv.1 then kv else p)
      else c ++ [kv])
    ctx

/-- The opening brace character. -/
def obr : Char := Char.ofNat 123

/-- The closing brace character. -/
def cbr : Char := Char.ofNat 125

/-- The single-quote character used by Python `repr` of strings. -/
def sqc : String := String.mk [Char.ofNat 39]

/-- Comma-separated join, as in Python `", ".join(...)`. -/
def joinComma (xs : List String) : String := String.intercalate ", " xs

mutual

/-- Python `repr` for the modelled variants. -/
def pyRepr : PyValue → String
  | .int n => toString n
  | .boolV b => if b then "True" else "False"
  | .noneV => "None"
  | .str s => sqc ++ s ++ sqc
  | .builtin n => "<built-in function " ++ n ++ ">"
  | .list xs => "[" ++ joinComma (pyReprList xs) ++ "]"
  | .dict kvs => String.mk [obr] ++ joinComma (pyReprKVs kvs) ++ String.mk [cbr]

/-- `repr` of each element of a list. -/
def pyReprList : List PyValue → List String
  | [] => []
  | v :: vs => pyRepr v :: pyReprList vs

/-- `repr` of each key-value pair of a dict. -/
def pyReprKVs : List (String × PyValue) → List String
  | [] => []
  | (k, v) :: rest => (sqc ++ k ++ sqc ++ ": " ++ pyRepr v) :: pyReprKVs rest

end

/-- Python `str()`: the string itself for strings, `repr` for every
other variant modelled here (ints, bools, None, lists, dicts,
builtins), matching what `str(result)` produces per variant. -/
def pyStr : PyValue → String
  | .int n => toString n
  | .boolV b => if b then "True" else "False"
  | .noneV => "None"
  | .str s => s
  | .builtin n => "<built-in function " ++ n ++ ">"
  | .list xs => pyRepr (.list xs)
  | .dict kvs => pyRepr (.dict kvs)

/-- Finite fragment of the builtins namespace that CPython inserts (as
`__builtins__`) into the empty globals dict passed to `eval`. -/
def builtinsCtx : Context :=
  [("len", .builtin "len"), ("abs", .builtin "abs"),
   ("str", .builtin "str"), ("print", .builtin "print")]

/-- Python keywords that are not constant literals: as a complete
expression each of these is a syntax error. -/
def pyKeywords : List String :=
  ["and", "as", "assert", "async", "await", "break", "class", "continue",
   "def", "del", "elif", "else", "except", "finally", "for", "from",
   "global", "if", "import", "in", "is", "lambda", "nonlocal", "not",
   "or", "pass", "raise", "return", "try", "while", "with", "yield"]

/-- The keyword constants, which evaluate to themselves regardless of
the binding environment. -/
def pyConstants : List String := ["True", "False", "None"]

/-- First character of a Python (ASCII) identifier. -/
def isIdStart (c : Char) : Bool := c.isAlpha || c = '_'

/-- Subsequent character of a Python (ASCII) identifier. -/
def isIdChar (c : Char) : Bool := c.isAlphanum || c = '_'

/-- Tokens of the modelled expression fragment. -/
inductive Tok where
  | ident (s : String)
  | num (n : Nat)
  | plus
deriving DecidableEq

/-- Decimal value of a digit run. -/
def natOfDigits (cs : List Char) : Nat :=
  cs.foldl (fun a c => a * 10 + (c.toNat - 48)) 0

/-- Fuel-indexed tokenizer for the expression fragment: identifiers,
decimal integer literals, `+`, and spaces; any other character is a
syntax error (`none`).  The fuel is instantiated with the input length,
which always suffices. -/
def lexF : Nat → List Char → Option (List Tok)
  | _, [] => some []
  | 0, _ :: _ => none
  | fuel + 1, c :: cs =>
    if isIdStart c then
      match lexF fuel (cs.dropWhile isIdChar) with
      | some ts => some (Tok.ident (String.mk (c :: cs.takeWhile isIdChar)) :: ts)
      | none => none
    else if c.isDigit then
      match lexF fuel (cs.dropWhile Char.isDigit) with
      | some ts => some (Tok.num (natOfDigits (c :: cs.takeWhile Char.isDigit)) :: ts)
      | none => none
    else if c = ' ' then lexF fuel cs
    else if c = '+' then
      match lexF fuel cs with
      | some ts => some (Tok.plus :: ts)
      | none => none
    else none

/-- Tokenizer entry point. -/
def lexChars (cs : List Char) : Option (List Tok) := lexF cs.length cs

/-- Expressions of the modelled fragment of the Python grammar. -/
inductive PyExpr where
  | name (s : String)
  | intLit (n : Nat)
  | boolLit (b : Bool)
  | noneLit
  | add (a b : PyExpr)
deriving DecidableEq

/-- Errors raised by parsing or evaluation. -/
inductive PyErr where
  | nameError (s : String)
  | typeError
  | syntaxError
deriving DecidableEq

/-- Python error message rendering (quotes omitted). -/
def errMsg : PyErr → String
  | .nameError s => "NameError: name " ++ s ++ " is not defined"
  | .typeError => "TypeError: unsupported operand type(s)"
  | .syntaxError => "SyntaxError: invalid syntax"

/-- Parse a single token as an atom.  The constants True/False/None are
literals; any other keyword is a syntax error; remaining identifiers are
name lookups. -/
def parseAtomT : Tok → Except PyErr PyExpr
  | .ident s =>
    if s = "True" then .ok (.boolLit true)
    else if s = "False" then .ok (.boolLit false)
    else if s = "None" then .ok (.noneLit)
    else if pyKeywords.contains s then .error .syntaxError
    else .ok (.name s)
  | .num n => .ok (.intLit n)
  | .plus => .error .syntaxError

/-- Parse the remaining `+ atom` tail, left-associatively. -/
def parseSum (acc : PyExpr) : List Tok → Except PyErr PyExpr
  | [] => .ok acc
  | .plus :: t :: rest =>
    match parseAtomT t with
    | .ok e => parseSum (.add acc e) rest
    | .error err => .error err
  | _ => .error .syntaxError

/-- Parse a complete expression string, as Python `eval` first compiles
its argument; unparsable input is a `SyntaxError`. -/
def parseExpr (s : String) : Except PyErr PyExpr :=
  match lexChars s.toList with
  | none => .error .syntaxError
  | some [] => .error .syntaxError
  | some (t :: rest) =>
    match parseAtomT t with
    | .ok e => parseSum e rest
    | .error err => .error err

/-- View a value as an integer for arithmetic: Python `bool` is a
subclass of `int`, so `True`/`False` count as `1`/`0`. -/
def asIntOpt : PyValue → Option Int
  | .int n => some n
  | .boolV b => some (if b then 1 else 0)
  | _ => none

/-- Python `+`: integer (and bool) addition, string concatenation, list
concatenation; every other combination is a `TypeError`. -/
def pyAdd (a b : PyValue) : Except PyErr PyValue :=
  match asIntOpt a, asIntOpt b with
  | some x, some y => .ok (.int (x + y))
  | _, _ =>
    match a, b with
    | .str x, .str y => .ok (.str (x ++ y))
    | .list x, .list y => .ok (.list (x ++ y))
    | _, _ => .error .typeError

/-- Evaluate an expression the way `eval(expression, {}, self.context)`
does: names resolve against the locals mapping (the context) first and
then against the builtins namespace that CPython inserts into the empty
globals dict; a name bound in neither raises `NameError`. -/
def evalExpr (ctx : Context) : PyExpr → Except PyErr PyValue
  | .name s =>
    match ctxLookup ctx s with
    | some v => .ok v
    | none =>
      match ctxLookup builtinsCtx s with
      | some v => .ok v
      | none => .error (.nameError s)
  | .intLit n => .ok (.int (Int.ofNat n))
  | .boolLit b => .ok (.boolV b)
  | .noneLit => .ok .noneV
  | .add a b =>
    match evalExpr ctx a with
    | .error e => .error e
    | .ok va =>
      match evalExpr ctx b with
      | .error e => .error e
      | .ok vb => pyAdd va vb

/-- `eval(expression, {}, ctx)`: compile, then evaluate. -/
def pyEval (expression : String) (ctx : Context) : Except PyErr PyValue :=
  match parseExpr expression with
  | .error e => .error e
  | .ok e => evalExpr ctx e

/-- Locate the first closing brace: `findClose cs = some (e, rest)` iff
`cs = e ++ cbr :: rest` with no closing brace in `e`; `none` iff `cs`
has no closing brace.  This is what the greedy `[^}]+` followed by `}`
matches after an opening brace. -/
def findClose : List Char → Option (List Char × List Char)
  | [] => none
  | c :: cs =>
    if c = cbr then some ([], cs)
    else
      match findClose cs with
      | some (e, rest) => some (c :: e, rest)
      | none => none

/-- Fuel-indexed scanner implementing `re.sub` for the pattern
`{([^}]+)}`: scan left to right; at an opening brace whose first
following closing brace is at distance at least two, the characters
between the braces form the match's group, the replacer's output is
substituted (and never re-scanned), and scanning resumes after the
closing brace; everywhere else the character is copied.  The replacer
returns replacement characters and a list of emitted diagnostics, which
are concatenated in scan order.  The fuel is instantiated with the
input length, which always suffices. -/
def reSubF (f : List Char → List Char × List String) :
    Nat → List Char → List Char × List String
  | _, [] => ([], [])
  | 0, _ :: _ => ([], [])
  | fuel + 1, c :: cs =>
    if c = obr then
      match findClose cs with
      | some (e, rest) =>
        if e = [] then
          (c :: (reSubF f fuel cs).1, (reSubF f fuel cs).2)
        else
          ((f e).1 ++ (reSubF f fuel rest).1, (f e).2 ++ (reSubF f fuel rest).2)
      | none => (c :: (reSubF f fuel cs).1, (reSubF f fuel cs).2)
    else (c :: (reSubF f fuel cs).1, (reSubF f fuel cs).2)

/-- Regex-substitution entry point (`pattern.sub(replacer, template)`). -/
def reSub (f : List Char → List Char × List String) (cs : List Char) :
    List Char × List String :=
  reSubF f cs.length cs

/-- The replacer closure of `_resolve_fstring`: evaluate the captured
expression with `eval(expression, {}, self.context)`; on success
substitute `str(result)`; on any exception substitute the original
placeholder text and emit the printed diagnostic. -/
def replacerC (ctx : Context) (expr : List Char) : List Char × List String :=
  match pyEval (String.mk expr) ctx with
  | .ok v => ((pyStr v).toList, [])
  | .error e =>
    (obr :: (expr ++ [cbr]),
     ["Failed to resolve expression: " ++ String.mk expr ++ ". Error: " ++ errMsg e])

/-- `_resolve_fstring` together with the diagnostics it prints: the
substituted string and the list of diagnostic messages, in order. -/
def resolveFstringD (ctx : Context) (template : String) : String × List String :=
  (String.mk (reSub (replacerC ctx) template.toList).1,
   (reSub (replacerC ctx) template.toList).2)

/-- `_resolve_fstring`: the substituted string returned to the caller. -/
def resolveFstring (ctx : Context) (template : String) : String :=
  (resolveFstringD ctx template).1

/-- Whether the pattern `{([^}]+)}` matches anywhere in the input, i.e.
whether the template contains at least one placeholder. -/
def hasMatchC : List Char → Bool
  | [] => false
  | c :: cs =>
    if c = obr then
      match findClose cs with
      | some (e, _) => if e = [] then hasMatchC cs else true
      | none => hasMatchC cs
    else hasMatchC cs

/-- Whether a template string contains a placeholder. -/
def hasPlaceholder (s : String) : Bool := hasMatchC s.toList

/-- Character-level shape of a Python (ASCII) identifier. -/
def isPyIdentChars : List Char → Bool
  | [] => false
  | c :: cs => isIdStart c && cs.all isIdChar

/-- A string that a bare-name expression can consist of: an identifier
that is neither a keyword constant nor another keyword. -/
def isPyName (s : String) : Bool :=
  isPyIdentChars s.toList && !(pyConstants.contains s) && !(pyKeywords.contains s)

mutual

/-- `_resolve_placeholders`: strings go through `_resolve_fstring`,
dicts and lists are rebuilt with every value/element recursively
resolved, and every other value is returned unchanged. -/
def resolvePlaceholders (ctx : Context) : PyValue → PyValue
  | .str s => .str (resolveFstring ctx s)
  | .dict kvs => .dict (resolveKVs ctx kvs)
  | .list xs => .list (resolveElems ctx xs)
  | .int n => .int n
  | .boolV b => .boolV b
  | .noneV => .noneV
  | .builtin n => .builtin n

/-- Elementwise resolution of a list (the list comprehension in
`_resolve_placeholders`). -/
def resolveElems (ctx : Context) : List PyValue → List PyValue
  | [] => []
  | v :: vs => resolvePlaceholders ctx v :: resolveElems ctx vs

/-- Valuewise resolution of a dict (the dict comprehension in
`_resolve_placeholders`; keys unchanged). -/
def resolveKVs (ctx : Context) : List (String × PyValue) → List (String × PyValue)
  | [] => []
  | (k, v) :: rest => (k, resolvePlaceholders ctx v) :: resolveKVs ctx rest

end

/-- `_resolve_ref`: for a string starting with the sigil `$`, return the
rest of the string (`value[1:]`); every other value is unchanged. -/
def resolveRef : PyValue → PyValue
  | .str s =>
    match s.toList with
    | c :: rest => if c = '$' then .str (String.mk rest) else .str s
    | [] => .str s
  | v => v

/-! ## Basic lemmas about strings and the scanner -/

theorem mk_toList (s : String) : String.mk s.toList = s := rfl

theorem mk_append (l1 l2 : List Char) :
    String.mk (l1 ++ l2) = String.mk l1 ++ String.mk l2 := rfl

theorem takeWhile_all {α : Type} (p : α → Bool) :
    ∀ (l : List α), l.all p = true → l.takeWhile p = l := by
  intro l
  induction l with
  | nil => intro _; rfl
  | cons a l ih =>
    intro h
    simp only [List.all_cons, Bool.and_eq_true] at h
    simp [List.takeWhile_cons, h.1, ih h.2]

theorem dropWhile_all {α : Type} (p : α → Bool) :
    ∀ (l : List α), l.all p = true → l.dropWhile p = [] := by
  intro l
  induction l with
  | nil => intro _; rfl
  | cons a l ih =>
    intro h
    simp only [List.all_cons, Bool.and_eq_true] at h
    simp [List.dropWhile_cons, h.1, ih h.2]

theorem findClose_length : ∀ (cs e rest : List Char),
    findClose cs = some (e, rest) → e.length + rest.length + 1 = cs.length := by
  intro cs
  induction cs with
  | nil => intro e rest h; simp [findClose] at h
  | cons c cs ih =>
    intro e rest h
    simp only [findClose] at h
    by_cases hc : c = cbr
    · rw [if_pos hc] at h
      cases h
      simp
    · rw [if_neg hc] at h
      cases hfc : findClose cs with
      | none => rw [hfc] at h; cases h
      | some p =>
        obtain ⟨e', rest'⟩ := p
        rw [hfc] at h
        simp only [Option.some.injEq, Prod.mk.injEq] at h
        obtain ⟨h1, h2⟩ := h
        subst h1
        subst h2
        have := ih e' rest' hfc
        simp only [List.length_cons]
        omega

theorem findClose_notin : ∀ (e rest : List Char), cbr ∉ e →
    findClose (e ++ cbr :: rest) = some (e, rest) := by
  intro e
  induction e with
  | nil => intro rest _; simp [findClose]
  | cons a e ih =>
    intro rest h
    have ha : a ≠ cbr := fun hc => h (by simp [hc])
    have hm : cbr ∉ e := fun hc => h (List.mem_cons_of_mem a hc)
    rw [List.cons_append]
    simp only [findClose, if_neg ha]
    rw [ih rest hm]

theorem reSubF_fuel (f : List Char → List Char × List String) :
    ∀ (n m : Nat) (cs : List Char), cs.length ≤ n → cs.length ≤ m →
      reSubF f n cs = reSubF f m cs := by
  intro n
  induction n with
  | zero =>
    intro m cs hn _
    cases cs with
    | nil => cases m <;> rfl
    | cons c cs => simp at hn
  | succ n ih =>
    intro m cs hn hm
    cases cs with
    | nil => cases m <;> rfl
    | cons c cs =>
      cases m with
      | zero => simp at hm
      | succ m =>
        simp only [List.length_cons] at hn hm
        simp only [reSubF]
        by_cases hc : c = obr
        · rw [if_pos hc, if_pos hc]
          cases hfc : findClose cs with
          | none => rw [ih m cs (by omega) (by omega)]
          | some p =>
            obtain ⟨e, rest⟩ := p
            dsimp only
            by_cases he : e = []
            · rw [if_pos he, if_pos he, ih m cs (by omega) (by omega)]
            · rw [if_neg he, if_neg he]
              have hlen := findClose_length cs e rest hfc
              rw [ih m rest (by omega) (by omega)]
        · rw [if_neg hc, if_neg hc, ih m cs (by omega) (by omega)]

theorem reSub_match (f : List Char → List Char × List String) (e rest : List Char)
    (hne : e ≠ []) (hnb : cbr ∉ e) :
    reSub f (obr :: (e ++ cbr :: rest)) =
      ((f e).1 ++ (reSub f rest).1, (f e).2 ++ (reSub f rest).2) := by
  have hfc := findClose_notin e rest hnb
  have hlen : rest.length ≤ (e ++ cbr :: rest).length := by simp; omega
  show reSubF f (obr :: (e ++ cbr :: rest)).length (obr :: (e ++ cbr :: rest)) = _
  rw [List.length_cons]
  simp only [reSubF, if_pos rfl, hfc, if_neg hne]
  rw [reSubF_fuel f (e ++ cbr :: rest).length rest.length rest hlen (Nat.le_refl _)]
  rfl

theorem reSubF_nomatch (f : List Char → List Char × List String) :
    ∀ (n : Nat) (cs : List Char), cs.length ≤ n → hasMatchC cs = false →
      reSubF f n cs = (cs, []) := by
  intro n
  induction n with
  | zero =>
    intro cs hl _
    cases cs with
    | nil => rfl
    | cons c cs => simp at hl
  | succ n ih =>
    intro cs hl hm
    cases cs with
    | nil => rfl
    | cons c cs =>
      simp only [List.length_cons] at hl
      simp only [reSubF]
      simp only [hasMatchC] at hm
      by_cases hc : c = obr
      · rw [if_pos hc]
        rw [if_pos hc] at hm
        cases hfc : findClose cs with
        | none =>
          rw [hfc] at hm
          rw [ih cs (by omega) hm]
        | some p =>
          obtain ⟨e, rest⟩ := p
          rw [hfc] at hm
          dsimp only at hm ⊢
          by_cases he : e = []
          · rw [if_pos he]
            rw [if_pos he] at hm
            rw [ih cs (by omega) hm]
          · rw [if_neg he] at hm
            exact absurd hm (by simp)
      · rw [if_neg hc]
        rw [if_neg hc] at hm
        rw [ih cs (by omega) hm]

theorem reSub_nomatch (f : List Char → List Char × List String) (cs : List Char)
    (h : hasMatchC cs = false) : reSub f cs = (cs, []) :=
  reSubF_nomatch f cs.length cs (Nat.le_refl _) h

theorem reSub_empty_braces (f : List Char → List Char × List String) (cs : List Char) :
    reSub f (obr :: cbr :: cs) = (obr :: cbr :: (reSub f cs).1, (reSub f cs).2) := by
  have hfc : findClose (cbr :: cs) = some ([], cs) := by simp [findClose]
  have hcb : ¬ (cbr = obr) := by decide
  show reSubF f (obr :: cbr :: cs).length (obr :: cbr :: cs) = _
  simp only [List.length_cons]
  simp only [reSubF, if_pos rfl, hfc, if_neg hcb]
  rfl

/-! ## Evaluation depends on the context only through lookup -/

theorem evalExpr_ext (ctx1 ctx2 : Context)
    (h : ∀ k, ctxLookup ctx1 k = ctxLookup ctx2 k) :
    ∀ e : PyExpr, evalExpr ctx1 e = evalExpr ctx2 e := by
  intro e
  induction e with
  | name s => simp only [evalExpr, h s]
  | intLit n => rfl
  | boolLit b => rfl
  | noneLit => rfl
  | add a b iha ihb => simp only [evalExpr, iha, ihb]

theorem pyEval_ext (ctx1 ctx2 : Context)
    (h : ∀ k, ctxLookup ctx1 k = ctxLookup ctx2 k) (s : String) :
    pyEval s ctx1 = pyEval s ctx2 := by
  unfold pyEval
  cases parseExpr s with
  | error e => rfl
  | ok e => exact evalExpr_ext ctx1 ctx2 h e

theorem replacerC_ext (ctx1 ctx2 : Context)
    (h : ∀ k, ctxLookup ctx1 k = ctxLookup ctx2 k) :
    replacerC ctx1 = replacerC ctx2 := by
  funext e
  unfold replacerC
  rw [pyEval_ext ctx1 ctx2 h]

theorem resolveFstringD_ext (ctx1 ctx2 : Context)
    (h : ∀ k, ctxLookup ctx1 k = ctxLookup ctx2 k) (t : String) :
    resolveFstringD ctx1 t = resolveFstringD ctx2 t := by
  unfold resolveFstringD
  rw [replacerC_ext ctx1 ctx2 h]

/-! ## Lexing and parsing bare identifiers -/

theorem lexChars_ident (c : Char) (cs : List Char)
    (h1 : isIdStart c = true) (h2 : cs.all isIdChar = true) :
    lexChars (c :: cs) = some [Tok.ident (String.mk (c :: cs))] := by
  show lexF (c :: cs).length (c :: cs) = _
  rw [List.length_cons]
  simp only [lexF, h1, takeWhile_all isIdChar cs h2, dropWhile_all isIdChar cs h2,
    if_true]

theorem parseExpr_ident (s : String) (h : isPyName s = true) :
    parseExpr s = Except.ok (PyExpr.name s) := by
  unfold isPyName at h
  simp only [Bool.and_eq_true, Bool.not_eq_true'] at h
  obtain ⟨⟨hid, hconst⟩, hkey⟩ := h
  unfold parseExpr
  cases hl : s.toList with
  | nil => rw [hl] at hid; simp [isPyIdentChars] at hid
  | cons c cs =>
    rw [hl] at hid
    simp only [isPyIdentChars, Bool.and_eq_true] at hid
    rw [lexChars_ident c cs hid.1 hid.2]
    have hs : String.mk (c :: cs) = s := by rw [← hl]; exact mk_toList s
    rw [hs]
    have h1 : ¬ (s = "True") := by
      intro hq; rw [hq] at hconst; exact absurd hconst (by decide)
    have h2 : ¬ (s = "False") := by
      intro hq; rw [hq] at hconst; exact absurd hconst (by decide)
    have h3 : ¬ (s = "None") := by
      intro hq; rw [hq] at hconst; exact absurd hconst (by decide)
    have h4 : ¬ (pyKeywords.contains s = true) := by rw [hkey]; simp
    dsimp only
    simp only [parseAtomT, if_neg h1, if_neg h2, if_neg h3, if_neg h4]
    rfl

/-! ## The walker rebuilds dicts and lists by mapping -/

theorem resolveElems_eq_map (ctx : Context) :
    ∀ xs : List PyValue, resolveElems ctx xs = xs.map (resolvePlaceholders ctx) := by
  intro xs
  induction xs with
  | nil => simp [resolveElems]
  | cons v vs ih => simp [resolveElems, ih]

theorem resolveKVs_eq_map (ctx : Context) :
    ∀ kvs : List (String × PyValue),
      resolveKVs ctx kvs = kvs.map (fun kv => (kv.1, resolvePlaceholders ctx kv.2)) := by
  intro kvs
  induction kvs with
  | nil => simp [resolveKVs]
  | cons kv rest ih =>
    obtain ⟨k, v⟩ := kv
    simp [resolveKVs, ih]

theorem ident_chars_no_cbr : ∀ (l : List Char), isPyIdentChars l = true → cbr ∉ l := by
  intro l h hmem
  cases l with
  | nil => simp at hmem
  | cons c cs =>
    simp only [isPyIdentChars, Bool.and_eq_true] at h
    rcases List.mem_cons.mp hmem with hc | hc
    · rw [← hc] at h
      exact absurd h.1 (by decide)
    · have := List.all_eq_true.mp h.2 cbr hc
      exact absurd this (by decide)

theorem resolveFstring_mk (ctx : Context) (l : List Char) :
    resolveFstring ctx (String.mk l) = String.mk (reSub (replacerC ctx) l).1 := rfl

theorem resolveFstringD_mk (ctx : Context) (l : List Char) :
    resolveFstringD ctx (String.mk l) =
      (String.mk (reSub (replacerC ctx) l).1, (reSub (replacerC ctx) l).2) := rfl

/-! ## Claims -/

/-- C1 counterexample: with an empty Context the expression `len`
references only names absent from Context, yet evaluation succeeds by
finding the name in the builtins namespace (CPython inserts
`__builtins__` into the empty globals dict passed to `eval`), and the
placeholder is substituted instead of being left in place. -/
theorem c1_counterexample :
    ctxLookup ([] : Context) "len" = none ∧
    pyEval "len" [] = Except.ok (PyValue.builtin "len") ∧
    resolveFstring [] "{len}" = "<built-in function len>" := ⟨rfl, rfl, rfl⟩

/-- C1 (amended): `_resolve_fstring` evaluates placeholder expressions
against the Context mapping extended by the builtins namespace (which
CPython inserts into the empty globals dict passed to `eval`): a name
resolves first in Context and then in builtins, so a bare-name
expression whose name is bound in neither fails with a NameError, while
a builtin name absent from Context still resolves. -/
theorem c1_binding_environment :
    (∀ (ctx : Context) (s : String), isPyName s = true →
        ctxLookup ctx s = none → ctxLookup builtinsCtx s = none →
        pyEval s ctx = Except.error (PyErr.nameError s)) ∧
    (∀ (ctx : Context) (s : String) (v : PyValue), isPyName s = true →
        ctxLookup ctx s = none → ctxLookup builtinsCtx s = some v →
        pyEval s ctx = Except.ok v) := by
  constructor
  · intro ctx s hname hctx hb
    unfold pyEval
    rw [parseExpr_ident s hname]
    simp [evalExpr, hctx, hb]
  · intro ctx s v hname hctx hb
    unfold pyEval
    rw [parseExpr_ident s hname]
    simp [evalExpr, hctx, hb]

/-- C1 witness: a name bound neither in Context nor in builtins raises
NameError, and a builtin name absent from Context resolves. -/
theorem c1_witness :
    pyEval "zzz" [] = Except.error (PyErr.nameError "zzz") ∧
    pyEval "abs" [] = Except.ok (PyValue.builtin "abs") :=
  ⟨c1_binding_environment.1 [] "zzz" (by decide) rfl rfl,
   c1_binding_environment.2 [] "abs" (PyValue.builtin "abs") (by decide) rfl rfl⟩

/-- C2: `_resolve_placeholders` is polymorphic over exactly four shapes:
a string goes through `_resolve_fstring`; a dict is rebuilt with the
same keys and every value recursively resolved; a list is rebuilt with
the same length and every element recursively resolved in order; and a
value of every other modelled type is returned unchanged. -/
theorem c2_resolvePlaceholders_shapes :
    (∀ (ctx : Context) (s : String),
        resolvePlaceholders ctx (.str s) = .str (resolveFstring ctx s)) ∧
    (∀ (ctx : Context) (kvs : List (String × PyValue)),
        resolvePlaceholders ctx (.dict kvs) =
          .dict (kvs.map (fun kv => (kv.1, resolvePlaceholders ctx kv.2))) ∧
        (kvs.map (fun kv => (kv.1, resolvePlaceholders ctx kv.2))).map Prod.fst =
          kvs.map Prod.fst) ∧
    (∀ (ctx : Context) (xs : List PyValue),
        resolvePlaceholders ctx (.list xs) = .list (xs.map (resolvePlaceholders ctx)) ∧
        (xs.map (resolvePlaceholders ctx)).length = xs.length) ∧
    (∀ (ctx : Context) (n : Int), resolvePlaceholders ctx (.int n) = .int n) ∧
    (∀ (ctx : Context) (b : Bool), resolvePlaceholders ctx (.boolV b) = .boolV b) ∧
    (∀ ctx : Context, resolvePlaceholders ctx .noneV = .noneV) ∧
    (∀ (ctx : Context) (n : String), resolvePlaceholders ctx (.builtin n) = .builtin n) := by
  refine ⟨?_, ?_, ?_, ?_, ?_, ?_, ?_⟩
  · intro ctx s; simp [resolvePlaceholders]
  · intro ctx kvs
    refine ⟨by simp [resolvePlaceholders, resolveKVs_eq_map], ?_⟩
    simp
  · intro ctx xs
    refine ⟨by simp [resolvePlaceholders, resolveElems_eq_map], ?_⟩
    simp
  · intro ctx n; simp [resolvePlaceholders]
  · intro ctx b; simp [resolvePlaceholders]
  · intro ctx; simp [resolvePlaceholders]
  · intro ctx n; simp [resolvePlaceholders]

/-- C3 counterexample: with Context binding the key "0" to 5, resolving
the template around that key evaluates the expression `0` as an integer
literal instead of looking up the key, so the result "0" differs from
str(C["0"]) = "5": the claim fails for keys that are not
identifier-shaped. -/
theorem c3_counterexample :
    ctxLookup [("0", PyValue.int 5)] "0" = some (PyValue.int 5) ∧
    resolveFstring [("0", PyValue.int 5)] "{0}" ≠ pyStr (PyValue.int 5) :=
  ⟨rfl, by decide⟩

/-- C3 (amended): for every Context C and every key k bound in C that is
an identifier and not a keyword, `_resolve_fstring` applied to the
template consisting of the single placeholder around k returns
str(C[k]); keys that are not identifier-shaped evaluate as literals or
fail instead of being looked up. -/
theorem c3_lookup_template (ctx : Context) (k : String) (v : PyValue)
    (hname : isPyName k = true) (hlk : ctxLookup ctx k = some v) :
    resolveFstring ctx (String.mk (obr :: (k.toList ++ [cbr]))) = pyStr v := by
  have hid : isPyIdentChars k.toList = true := by
    unfold isPyName at hname
    simp only [Bool.and_eq_true] at hname
    exact hname.1.1
  have hne : k.toList ≠ [] := by
    intro h
    rw [h] at hid
    exact absurd hid (by decide)
  have hnb : cbr ∉ k.toList := ident_chars_no_cbr k.toList hid
  rw [resolveFstring_mk ctx (obr :: (k.toList ++ [cbr]))]
  rw [reSub_match (replacerC ctx) k.toList [] hne hnb]
  rw [show reSub (replacerC ctx) [] = ([], []) from rfl]
  dsimp only
  unfold replacerC
  rw [mk_toList]
  unfold pyEval
  rw [parseExpr_ident k hname]
  simp [evalExpr, hlk, mk_toList]

/-- C3 witness: Context binding x to 7 resolves the single-placeholder
template around x to "7". -/
theorem c3_witness :
    resolveFstring [("x", PyValue.int 7)] (String.mk (obr :: ("x".toList ++ [cbr]))) =
      pyStr (PyValue.int 7) :=
  c3_lookup_template [("x", PyValue.int 7)] "x" (PyValue.int 7) (by decide) rfl

/-- C4: a placeholder whose expression fails to evaluate (unknown name,
malformed expression, or runtime error) is left in the output verbatim,
a diagnostic identifying the failing expression and the error is
emitted, resolution continues on the rest of the template, and no
exception reaches the caller (the resolver is a total function); in
particular, a template consisting of the single placeholder around
`undefined_name`, with that name absent from Context, resolves to
itself with one diagnostic. -/
theorem c4_failure_fail_soft :
    (∀ (ctx : Context) (e rest : List Char) (err : PyErr),
        e ≠ [] → cbr ∉ e → pyEval (String.mk e) ctx = Except.error err →
        resolveFstringD ctx (String.mk (obr :: (e ++ cbr :: rest))) =
          (String.mk (obr :: (e ++ cbr :: (reSub (replacerC ctx) rest).1)),
           ("Failed to resolve expression: " ++ String.mk e ++ ". Error: " ++ errMsg err)
             :: (reSub (replacerC ctx) rest).2)) ∧
    (∀ ctx : Context, ctxLookup ctx "undefined_name" = none →
        resolveFstringD ctx "{undefined_name}" =
          ("{undefined_name}",
           ["Failed to resolve expression: undefined_name. Error: " ++
              errMsg (PyErr.nameError "undefined_name")])) := by
  have hmain : ∀ (ctx : Context) (e rest : List Char) (err : PyErr),
      e ≠ [] → cbr ∉ e → pyEval (String.mk e) ctx = Except.error err →
      resolveFstringD ctx (String.mk (obr :: (e ++ cbr :: rest))) =
        (String.mk (obr :: (e ++ cbr :: (reSub (replacerC ctx) rest).1)),
         ("Failed to resolve expression: " ++ String.mk e ++ ". Error: " ++ errMsg err)
           :: (reSub (replacerC ctx) rest).2) := by
    intro ctx e rest err hne hnb hev
    rw [resolveFstringD_mk ctx (obr :: (e ++ cbr :: rest))]
    rw [reSub_match (replacerC ctx) e rest hne hnb]
    unfold replacerC
    rw [hev]
    dsimp only
    simp only [Prod.mk.injEq]
    constructor
    · exact congrArg String.mk (by simp)
    · simp
  refine ⟨hmain, ?_⟩
  intro ctx h
  have hb : ctxLookup builtinsCtx "undefined_name" = none := rfl
  have hev : pyEval "undefined_name" ctx =
      Except.error (PyErr.nameError "undefined_name") := by
    unfold pyEval
    rw [parseExpr_ident "undefined_name" (by decide)]
    simp [evalExpr, h, hb]
  have := hmain ctx "undefined_name".toList [] (PyErr.nameError "undefined_name")
    (by decide) (by decide) (by rw [mk_toList]; exact hev)
  rw [show ("{undefined_name}" : String) =
        String.mk (obr :: ("undefined_name".toList ++ cbr :: [])) from rfl]
  rw [this]
  rfl

/-- C4 witness: with the empty Context the placeholder around
`undefined_name` is returned verbatim with its diagnostic. -/
theorem c4_witness :
    resolveFstringD [] "{undefined_name}" =
      ("{undefined_name}",
       ["Failed to resolve expression: undefined_name. Error: " ++
          errMsg (PyErr.nameError "undefined_name")]) :=
  c4_failure_fail_soft.2 [] rfl

/-- C5: the result of `_resolve_fstring` is a function of exactly the
template and the Context contents at the moment of the call — contexts
with equal lookup contents give equal results — while an update to the
Context between two calls can change the result of the same template
(no caching across calls). -/
theorem c5_reads_context_at_call_time :
    (∀ (ctx1 ctx2 : Context) (t : String),
        (∀ k, ctxLookup ctx1 k = ctxLookup ctx2 k) →
        resolveFstring ctx1 t = resolveFstring ctx2 t) ∧
    (∃ (ctx kwargs : Context) (t : String),
        resolveFstring (ctxUpdate ctx kwargs) t ≠ resolveFstring ctx t) := by
  constructor
  · intro ctx1 ctx2 t h
    unfold resolveFstring
    rw [resolveFstringD_ext ctx1 ctx2 h t]
  · refine ⟨[], [("x", PyValue.int 1)], "{x}", ?_⟩
    decide

/-- C5 witness: two contexts with the same lookup contents (the same
pairs in a different order, with distinct keys) resolve the same
template to the same string. -/
theorem c5_witness :
    resolveFstring [("x", PyValue.int 1), ("y", PyValue.int 2)] "{x+y}" =
      resolveFstring [("y", PyValue.int 2), ("x", PyValue.int 1)] "{x+y}" :=
  c5_reads_context_at_call_time.1 _ _ "{x+y}" (fun k => by
    simp only [ctxLookup]
    by_cases hx : "x" = k
    · have hy : ¬ ("y" = k) := by rw [← hx]; decide
      rw [if_pos hx, if_neg hy, if_pos hx]
    · by_cases hy : "y" = k
      · rw [if_neg hx, if_pos hy, if_pos hy]
      · rw [if_neg hx, if_neg hy, if_neg hy, if_neg hx])

/-- C6: a template containing zero placeholders resolves to itself, and
resolution is idempotent on fully resolved output: if the result of
resolving a template contains no remaining placeholder, resolving it
again returns it unchanged. -/
theorem c6_no_placeholder_identity :
    (∀ (ctx : Context) (t : String), hasPlaceholder t = false →
        resolveFstring ctx t = t) ∧
    (∀ (ctx : Context) (t : String),
        hasPlaceholder (resolveFstring ctx t) = false →
        resolveFstring ctx (resolveFstring ctx t) = resolveFstring ctx t) := by
  have h1 : ∀ (ctx : Context) (t : String), hasPlaceholder t = false →
      resolveFstring ctx t = t := by
    intro ctx t h
    unfold resolveFstring resolveFstringD
    rw [reSub_nomatch (replacerC ctx) t.toList h]
    exact mk_toList t
  exact ⟨h1, fun ctx t h => h1 ctx _ h⟩

/-- C6 witness: a placeholder-free template is unchanged, and a fully
resolved output re-resolves to itself. -/
theorem c6_witness :
    resolveFstring [] "plain text" = "plain text" ∧
    resolveFstring [("y", PyValue.int 2)]
        (resolveFstring [("y", PyValue.int 2)] "{y}") =
      resolveFstring [("y", PyValue.int 2)] "{y}" :=
  ⟨c6_no_placeholder_identity.1 [] "plain text" (by decide),
   c6_no_placeholder_identity.2 [("y", PyValue.int 2)] "{y}" (by decide)⟩

/-- C7: end-to-end vectors: with Context x=5, y=10 the template
"sum={x+y}" resolves to "sum=15"; with Context x=1, y=2 the nested
structure resolves to the structure with "1" and "2" substituted and
the bare 3 untouched. -/
theorem c7_end_to_end :
    resolveFstring [("x", PyValue.int 5), ("y", PyValue.int 10)] "sum={x+y}" =
      "sum=15" ∧
    resolvePlaceholders [("x", PyValue.int 1), ("y", PyValue.int 2)]
        (PyValue.dict [("a", PyValue.str "{x}"),
                       ("b", PyValue.list [PyValue.str "{y}", PyValue.int 3])]) =
      PyValue.dict [("a", PyValue.str "1"),
                    ("b", PyValue.list [PyValue.str "2", PyValue.int 3])] := by
  constructor
  · rfl
  · simp only [resolvePlaceholders, resolveKVs, resolveElems]
    rfl

/-- C8: `_resolve_ref` strips exactly one leading sigil and nothing
else: a string beginning with the dollar sigil maps to its remainder
(no Context dereference), any other string and every non-string value
is returned unchanged; including the concrete vectors of the spec. -/
theorem c8_resolveRef :
    (∀ cs : List Char, resolveRef (.str (String.mk ('$' :: cs))) = .str (String.mk cs)) ∧
    (∀ s : String, s.toList.head? ≠ some '$' → resolveRef (.str s) = .str s) ∧
    (∀ n : Int, resolveRef (.int n) = .int n) ∧
    (∀ b : Bool, resolveRef (.boolV b) = .boolV b) ∧
    (resolveRef .noneV = .noneV) ∧
    (∀ xs : List PyValue, resolveRef (.list xs) = .list xs) ∧
    (∀ kvs : List (String × PyValue), resolveRef (.dict kvs) = .dict kvs) ∧
    (∀ n : String, resolveRef (.builtin n) = .builtin n) ∧
    resolveRef (.str "$foo") = .str "foo" ∧
    resolveRef (.str "foo") = .str "foo" ∧
    resolveRef (.int 42) = .int 42 := by
  refine ⟨?_, ?_, fun n => rfl, fun b => rfl, rfl, fun xs => rfl, fun kvs => rfl,
    fun n => rfl, rfl, rfl, rfl⟩
  · intro cs; rfl
  · intro s h
    cases hl : s.toList with
    | nil =>
      have hs : s = String.mk [] := by rw [← hl, mk_toList]
      rw [hs]
      rfl
    | cons c rest =>
      have hs : s = String.mk (c :: rest) := by rw [← hl, mk_toList]
      rw [hl] at h
      simp only [List.head?_cons, ne_eq, Option.some.injEq] at h
      rw [hs]
      show (if c = '$' then PyValue.str (String.mk rest)
            else PyValue.str (String.mk (c :: rest))) =
        PyValue.str (String.mk (c :: rest))
      rw [if_neg h]

/-- C8 witness: a sigil-free string is returned unchanged. -/
theorem c8_witness : resolveRef (PyValue.str "bar") = PyValue.str "bar" :=
  c8_resolveRef.2.1 "bar" (by decide)

/-- C9: an empty brace pair is not a placeholder: the pattern requires
at least one non-close-brace character between the braces, so an
empty pair at the scan position is copied verbatim, triggers no
expression evaluation, and emits no diagnostic; concretely the
two-character template of just a brace pair resolves to itself with no
diagnostics. -/
theorem c9_empty_braces :
    (∀ (ctx : Context) (rest : List Char),
        resolveFstringD ctx (String.mk (obr :: cbr :: rest)) =
          (String.mk (obr :: cbr :: (reSub (replacerC ctx) rest).1),
           (reSub (replacerC ctx) rest).2)) ∧
    (∀ ctx : Context, resolveFstringD ctx "{}" = ("{}", [])) := by
  have h1 : ∀ (ctx : Context) (rest : List Char),
      resolveFstringD ctx (String.mk (obr :: cbr :: rest)) =
        (String.mk (obr :: cbr :: (reSub (replacerC ctx) rest).1),
         (reSub (replacerC ctx) rest).2) := by
    intro ctx rest
    rw [resolveFstringD_mk ctx (obr :: cbr :: rest)]
    rw [reSub_empty_braces]
  refine ⟨h1, ?_⟩
  intro ctx
  have := h1 ctx []
  rw [show reSub (replacerC ctx) [] = ([], []) from rfl] at this
  rw [show ("{}" : String) = String.mk (obr :: cbr :: []) from rfl]
  exact this

/-- C10: substitution is single-pass over the original template: the
replacer's output is spliced into the result verbatim and scanning
resumes after the closing brace, so a substituted value that itself
contains a placeholder-shaped span is not re-resolved; concretely, with
Context x bound to the string "{y}" and y bound to 2, the template
around x resolves to the literal text "{y}". -/
theorem c10_single_pass :
    (∀ (ctx : Context) (e rest : List Char) (v : PyValue),
        e ≠ [] → cbr ∉ e → pyEval (String.mk e) ctx = Except.ok v →
        resolveFstring ctx (String.mk (obr :: (e ++ cbr :: rest))) =
          pyStr v ++ resolveFstring ctx (String.mk rest)) ∧
    resolveFstring [("x", PyValue.str "{y}"), ("y", PyValue.int 2)] "{x}" = "{y}" := by
  constructor
  · intro ctx e rest v hne hnb hev
    rw [resolveFstring_mk ctx (obr :: (e ++ cbr :: rest))]
    rw [resolveFstring_mk ctx rest]
    rw [reSub_match (replacerC ctx) e rest hne hnb]
    unfold replacerC
    rw [hev]
    rfl
  · rfl

/-- C10 witness: a placeholder around a bound name is replaced by the
string form of its value, spliced before the resolution of the rest. -/
theorem c10_witness :
    resolveFstring [("a", PyValue.int 3)]
        (String.mk (obr :: ("a".toList ++ cbr :: []))) =
      pyStr (PyValue.int 3) ++ resolveFstring [("a", PyValue.int 3)] (String.mk []) :=
  c10_single_pass.1 [("a", PyValue.int 3)] "a".toList [] (PyValue.int 3)
    (by decide) (by decide) rfl
